import Mathlib

/-!
Shallow embedding of the axilent AXI4-Lite master library (comms.py,
handlers.py, dicts.py, cocotb_handler.py) together with theorems checking
the natural-language specification against it.

Python mutable deques are modelled as Lean lists threaded through the
functions; Python exceptions that escape a function (assertion failures,
TypeError and IndexError) are modelled as `Except.error ()`; the Exception
objects stored in local variable `e` of `process_responses` are modelled
by the inductive `PErr`.
-/

namespace Axilent

/-- AXI response codes (comms.py lines 15-18). -/
def OKAY : Nat := 0

def EXOKAY : Nat := 1

def SLVERR : Nat := 2

def DECERR : Nat := 3

/-- Python values flowing through command results: None, booleans, integers
and lists of such. -/
inductive Val where
  | vnone : Val
  | vbool : Bool → Val
  | vint : Int → Val
  | vlist : List Val → Val

/-- The `AxiResponse` namedtuple (comms.py line 26): a response with a
declared `length`, a list of data words (each possibly None), and a
response code `resp`. -/
structure AxiResponse where
  length : Nat
  data : List Val
  resp : Nat

/-- READ_TYPE / WRITE_TYPE (comms.py lines 22-23). -/
inductive RW where
  | read : RW
  | write : RW
deriving DecidableEq, Repr

/-- The fields of an `AxiCommand` (comms.py lines 91-126).  `data` is
`none` for read commands, mirroring Python's `data=None`. -/
structure AxiCommand where
  start_address : Nat
  length : Nat
  readorwrite : RW
  data : Option (List Int) := none
  constant_address : Bool := false
  address_by_word : Bool := true
deriving DecidableEq, Repr

/-- The exceptions that `process_responses` implementations can store in
their local `e` before resolving the future (comms.py lines 154, 161, 164,
294, 303). -/
inductive PErr where
  | ranOut : PErr
  | lengthMismatch : PErr
  | badResponse : PErr
  | wrongNumberOfResults : PErr
  | notBoolean : PErr
deriving DecidableEq, Repr

/-- Python's `x if x is not None else y` pattern used for error
accumulation: keep the first option if present. -/
def orO {α : Type} : Option α → Option α → Option α
  | some x, _ => some x
  | none, b => b

/-- The `while total_response_length < self.length` loop of
`AxiCommand.process_responses` (comms.py lines 152-165).  Arguments after
the FIFO are the loop state: `total` is `total_response_length`, `acc` is
`data`, `e` is the current value of the local `e`.  Returns the final
`(e, data, remaining FIFO)`. -/
def AxiCommand.responseLoop (cmdLen : Nat) :
    List AxiResponse → Nat → List Val → Option PErr →
    Option PErr × List Val × List AxiResponse
  | [], total, acc, e =>
      if total < cmdLen then (some .ranOut, acc, []) else (e, acc, [])
  | r :: rest, total, acc, e =>
      if total < cmdLen then
        AxiCommand.responseLoop cmdLen rest (total + r.length) (acc ++ r.data)
          (if cmdLen < total + r.length then some .lengthMismatch
           else if r.resp ≠ OKAY then some .badResponse
           else e)
      else (e, acc, r :: rest)

/-- `AxiCommand.process_responses` (comms.py lines 131-173).  Consumes the
relevant response FIFO, trims the accumulated data to `cmd.length`, and
then executes `assert len(data) == self.length`; a failing assertion is an
escaping AssertionError, modelled as `Except.error ()`.  The pair after
the result is the final state of the read and write FIFOs (Python mutates
the deques even when the assertion fires). -/
def AxiCommand.process_responses (cmd : AxiCommand)
    (read_responses write_responses : List AxiResponse) :
    Except Unit (Option PErr × List Val) × List AxiResponse × List AxiResponse :=
  let relevant :=
    match cmd.readorwrite with
    | .read => read_responses
    | .write => write_responses
  let out := AxiCommand.responseLoop cmd.length relevant 0 [] none
  let data := out.2.1.take cmd.length
  let res : Except Unit (Option PErr × List Val) :=
    if data.length = cmd.length then .ok (out.1, data) else .error ()
  match cmd.readorwrite with
  | .read => (res, out.2.2, write_responses)
  | .write => (res, read_responses, out.2.2)

/-- The `AxiCommand` that `GetBooleanCommand.__init__` builds (comms.py
lines 278-285): a constant-address single read. -/
def GetBooleanCommand.axi (address : Nat) : AxiCommand :=
  { start_address := address, length := 1, readorwrite := .read,
    data := none, constant_address := true, address_by_word := true }

/-- `GetBooleanCommand.process_responses` (comms.py lines 287-306): run the
base `AxiCommand.process_responses`, then translate the single data word to
a boolean, with `r = None` on any error. -/
def GetBooleanCommand.process_responses (address : Nat)
    (read_responses write_responses : List AxiResponse) :
    Except Unit (Option PErr × Val) × List AxiResponse × List AxiResponse :=
  match AxiCommand.process_responses (GetBooleanCommand.axi address)
      read_responses write_responses with
  | (.error u, rf2, wf2) => (.error u, rf2, wf2)
  | (.ok (e, result), rf2, wf2) =>
      let out : Option PErr × Val :=
        match e with
        | some ex => (some ex, .vnone)
        | none =>
            if result.length ≠ 1 then (some .wrongNumberOfResults, .vnone)
            else
              match result with
              | [.vint n] =>
                  if n = 1 then (none, .vbool true)
                  else if n = 0 then (none, .vbool false)
                  else (some .notBoolean, .vnone)
              | [_] => (some .notBoolean, .vnone)
              | _ => (some .wrongNumberOfResults, .vnone)
      (.ok out, rf2, wf2)

/-- The closed set of `Command` variants whose `process_responses` the
claims exercise: plain `AxiCommand`s, `GetBooleanCommand`s,
`FakeWaitCommand`s, and `CombinedCommand`s over a list of sub-commands
(comms.py lines 63-85, 276-306, 326-351, 354-378). -/
inductive Command where
  | axi : AxiCommand → Command
  | getBoolean : Nat → Command
  | fakeWait : Command
  | combined : List Command → Command

mutual

/-- `process_responses` dispatched over the `Command` variants.  An
`AxiCommand` returns its data list, a `GetBooleanCommand` its boolean, a
`FakeWaitCommand` returns `(None, None)` touching nothing (comms.py lines
346-348), and a `CombinedCommand` wraps `CombinedCommand.process_responses`
over its sub-command list. -/
def Command.process_responses :
    Command → List AxiResponse → List AxiResponse →
    Except Unit (Option PErr × Val) × List AxiResponse × List AxiResponse
  | .axi ac, rf, wf =>
      match AxiCommand.process_responses ac rf wf with
      | (.error u, rf2, wf2) => (.error u, rf2, wf2)
      | (.ok (e, data), rf2, wf2) => (.ok (e, .vlist data), rf2, wf2)
  | .getBoolean address, rf, wf =>
      GetBooleanCommand.process_responses address rf wf
  | .fakeWait, rf, wf => (.ok (none, .vnone), rf, wf)
  | .combined cs, rf, wf =>
      match CombinedCommand.process_responses cs rf wf with
      | (.error u, rf2, wf2) => (.error u, rf2, wf2)
      | (.ok (first_e, results), rf2, wf2) =>
          (.ok (first_e, .vlist results), rf2, wf2)

/-- The `for command in self.commands` loop of
`CombinedCommand.process_responses` (comms.py lines 366-378): each
sub-command processes the same two FIFOs in list order; `first_e` keeps the
first non-None sub-error; every sub-result is appended.  An escaping
exception in a sub-command propagates immediately. -/
def CombinedCommand.process_responses :
    List Command → List AxiResponse → List AxiResponse →
    Except Unit (Option PErr × List Val) × List AxiResponse × List AxiResponse
  | [], rf, wf => (.ok (none, []), rf, wf)
  | c :: cs, rf, wf =>
      match Command.process_responses c rf wf with
      | (.error u, rf2, wf2) => (.error u, rf2, wf2)
      | (.ok (e, result), rf2, wf2) =>
          match CombinedCommand.process_responses cs rf2 wf2 with
          | (.error u, rf3, wf3) => (.error u, rf3, wf3)
          | (.ok (first_e, results), rf3, wf3) =>
              (.ok (orO e first_e, result :: results), rf3, wf3)

end

/-- `DictCommandHandler.process_responses` (handlers.py lines 87-89): call
each sent command's `process_responses` in submission order on the shared
FIFOs; the observable outcome is the per-command `(e, result)` pair list
(stored in each command's future by Python). -/
def DictCommandHandler.process_responses :
    List Command → List AxiResponse → List AxiResponse →
    Except Unit (List (Option PErr × Val)) × List AxiResponse × List AxiResponse
  | [], rf, wf => (.ok [], rf, wf)
  | c :: cs, rf, wf =>
      match Command.process_responses c rf wf with
      | (.error u, rf2, wf2) => (.error u, rf2, wf2)
      | (.ok out, rf2, wf2) =>
          match DictCommandHandler.process_responses cs rf2 wf2 with
          | (.error u, rf3, wf3) => (.error u, rf3, wf3)
          | (.ok outs, rf3, wf3) => (.ok (out :: outs), rf3, wf3)

/-- The states of a `Future` (comms.py lines 35-37). -/
inductive FState where
  | unresolved : FState
  | okay : FState
  | error : FState
deriving DecidableEq, Repr

/-- The `Future` cell (comms.py lines 33-60).  `stateF` is the Python
`state` attribute; `result_value` and `exception_value` start as None. -/
structure Future where
  result_value : Val
  exception_value : Option PErr
  stateF : FState

/-- `Future.__init__` (comms.py lines 39-42). -/
def Future.init : Future :=
  { result_value := .vnone, exception_value := none, stateF := .unresolved }

/-- `Future.set_result` (comms.py lines 44-47): `assert state == UNRESOLVED`
then store the value and move to OKAY.  A failing assertion escapes as
`Except.error ()` and the cell is not overwritten. -/
def Future.set_result (f : Future) (result : Val) : Except Unit Future :=
  if f.stateF = .unresolved then
    .ok { f with result_value := result, stateF := .okay }
  else .error ()

/-- `Future.set_exception` (comms.py lines 49-52). -/
def Future.set_exception (f : Future) (exception : PErr) : Except Unit Future :=
  if f.stateF = .unresolved then
    .ok { f with exception_value := some exception, stateF := .error }
  else .error ()

/-- What `Future.result` raises (comms.py lines 54-60): in the ERROR state
the stored exception is raised; in the UNRESOLVED state a fresh
`Exception('Future is unresolved')` is raised. -/
inductive ResultErr where
  | unresolvedRead : ResultErr
  | raised : Option PErr → ResultErr

/-- `Future.result` (comms.py lines 54-60). -/
def Future.result (f : Future) : Except ResultErr Val :=
  match f.stateF with
  | .error => .error (.raised f.exception_value)
  | .unresolved => .error .unresolvedRead
  | .okay => .ok f.result_value

/-- `CocotbHandler.write` after the response event fires
(cocotb_handler.py lines 219-225): raise
`AxiResponseException('Bad response: ...')` carrying the offending code
when the resolved response is not OKAY, otherwise return the data. -/
def CocotbHandler.write_result (response : Nat) (data : Val) : Except Nat Val :=
  if response ≠ OKAY then .error response else .ok data

/-- `CocotbHandler.read` after the response event fires
(cocotb_handler.py lines 233-239); same body as `write_result`. -/
def CocotbHandler.read_result (response : Nat) (data : Val) : Except Nat Val :=
  if response ≠ OKAY then .error response else .ok data

/-- The per-beat address computation of the WRITE branch of
`CocotbHandler.send` (cocotb_handler.py lines 180-187): one
`(address, data)` pair per element of `ac.data`, with the address advanced
by `offset` when addressing by word and by `offset * 4` otherwise.  Python
guarantees `ac.data` is present on the WRITE branch; a read command
contributes no write beats. -/
def CocotbHandler.write_beats (ac : AxiCommand) : List (Nat × Int) :=
  ((ac.data.getD []).enum).map (fun od =>
    let offset := od.1
    let address :=
      if ac.constant_address then ac.start_address
      else if ac.address_by_word then ac.start_address + offset
      else ac.start_address + offset * 4
    (address, od.2))

/-- The per-beat address computation of the READ branch of
`CocotbHandler.send` (cocotb_handler.py lines 189-196): one address per
`index in range(ac.length)`. -/
def CocotbHandler.read_beats (ac : AxiCommand) : List Nat :=
  (List.range ac.length).map (fun index =>
    if ac.constant_address then ac.start_address
    else if ac.address_by_word then ac.start_address + index
    else ac.start_address + index * 4)

/-- An AXI4-Lite master-to-slave dictionary (dicts.py lines 12-28),
field-for-field. -/
structure M2SDict where
  araddr : Nat
  arprot : Nat
  arvalid : Nat
  awaddr : Nat
  awprot : Nat
  awvalid : Nat
  bready : Nat
  rready : Nat
  wdata : Int
  wstrb : Nat
  wvalid : Nat
deriving DecidableEq, Repr

/-- `make_empty_axi4lite_m2s_dict` (dicts.py lines 12-28). -/
def make_empty_axi4lite_m2s_dict : M2SDict :=
  { araddr := 0, arprot := 0, arvalid := 0, awaddr := 0, awprot := 0,
    awvalid := 0, bready := 1, rready := 1, wdata := 0, wstrb := 15,
    wvalid := 0 }

/-- `make_axi4lite_m2s_dict(bready=1, rready=1)` as called from
`axi_commands_to_axi_dicts` (dicts.py lines 31-46, 85, 88). -/
def make_axi4lite_m2s_dict_ready : M2SDict :=
  { make_empty_axi4lite_m2s_dict with bready := 1, rready := 1 }

/-- The elements of the `axi_commands` list fed to
`axi_commands_to_axi_dicts`: plain `AxiCommand`s and `FakeWaitCommand`s
carrying a clock-cycle count (dicts.py lines 83-85). -/
inductive AxiOrWait where
  | axi : AxiCommand → AxiOrWait
  | wait : Nat → AxiOrWait

/-- The per-beat dictionary built by the inner loop of
`axi_commands_to_axi_dicts` (dicts.py lines 87-104).  The address always
advances by `index`, with no use of `address_by_word`.  Negative write data
raises (dicts.py lines 101-103); a missing or too-short data list raises a
TypeError or IndexError in Python, also modelled as `Except.error ()`. -/
def axi_command_to_dict (ac : AxiCommand) (index : Nat) : Except Unit M2SDict :=
  let d := make_axi4lite_m2s_dict_ready
  let address := if ac.constant_address then ac.start_address
                 else ac.start_address + index
  match ac.readorwrite with
  | .read => .ok { d with araddr := address, arvalid := 1 }
  | .write =>
      match ac.data with
      | none => .error ()
      | some l =>
          match l[index]? with
          | none => .error ()
          | some w =>
              if w < 0 then .error ()
              else .ok { d with awaddr := address, awvalid := 1,
                                wvalid := 1, wdata := w }

/-- The `for index in range(ac.length)` loop of `axi_commands_to_axi_dicts`
(dicts.py lines 87-104), over an explicit list of beat indices; an
exception from any beat propagates. -/
def axi_command_beat_dicts (ac : AxiCommand) :
    List Nat → Except Unit (List M2SDict)
  | [] => .ok []
  | i :: is =>
      match axi_command_to_dict ac i with
      | .error u => .error u
      | .ok d =>
          match axi_command_beat_dicts ac is with
          | .error u => .error u
          | .ok rest => .ok (d :: rest)

/-- `axi_commands_to_axi_dicts` (dicts.py lines 80-105). -/
def axi_commands_to_axi_dicts : List AxiOrWait → Except Unit (List M2SDict)
  | [] => .ok []
  | .wait cc :: acs =>
      match axi_commands_to_axi_dicts acs with
      | .error u => .error u
      | .ok rest =>
          .ok ((List.replicate cc make_axi4lite_m2s_dict_ready) ++ rest)
  | .axi ac :: acs =>
      match axi_command_beat_dicts ac (List.range ac.length) with
      | .error u => .error u
      | .ok ds =>
          match axi_commands_to_axi_dicts acs with
          | .error u => .error u
          | .ok rest => .ok (ds ++ rest)

/-- `NamedPipeHandler.add_axi_command` (handlers.py lines 129-149): per-beat
read addresses, write addresses and write data.  The address always
advances by `index`; `address_by_word` is never consulted.  The write loop
enumerates `axi_command.data`. -/
def NamedPipeHandler.add_axi_command (ac : AxiCommand) :
    List Nat × List Nat × List Int :=
  match ac.readorwrite with
  | .read =>
      ((List.range ac.length).map (fun index =>
          if ac.constant_address then ac.start_address
          else ac.start_address + index),
       [], [])
  | .write =>
      ([],
       ((ac.data.getD []).enum).map (fun idxd =>
          if ac.constant_address then ac.start_address
          else ac.start_address + idxd.1),
       ((ac.data.getD []).enum).map (fun idxd => idxd.2))

/-- One payload's pass through the inner `while True` loop of
`CocotbHandler.process_queue_out` (cocotb_handler.py lines 251-261).  Each
cycle is a pair `(roll, ready)`: `roll` is the fresh throttle draw
`rnd.random() < queue_info.throttle` of that cycle, `ready` the peer's
ready at the sampling point.  The returned list is the driven `valid`
value cycle by cycle, ending with the cycle in which the payload is
consumed (`ready` and `valid` both high).  The throttle is re-rolled every
cycle, whether or not `valid` was already asserted. -/
def CocotbHandler.valid_trace : List (Bool × Bool) → List Bool
  | [] => []
  | (roll, ready) :: rest =>
      let valid := roll
      if ready && valid then [valid]
      else valid :: CocotbHandler.valid_trace rest

/-- The element-wise assertion of `SetUnsignedsCommand.__init__`
(comms.py lines 180-181): every value must be below `2 ** 32`. -/
def SetUnsignedsCommand.values_ok (values : List Int) : Bool :=
  values.all (fun value => value < 2 ^ 32)

/-- The signed-to-unsigned conversion of `SetSignedsCommand.__init__`
(comms.py lines 208-209): negative values are shifted up by `2 ** 32`. -/
def SetSignedsCommand.unsigneds (values : List Int) : List Int :=
  values.map (fun v => if v < 0 then v + 2 ^ 32 else v)

/-! ## Spec-side auxiliary definitions

Definitions in this section restate parts of the specification's language
(per-beat address formulas, the per-response error ranking, the cover
count) so the source-derived functions above can be compared against
them. -/

/-- The error that one consumed response contributes, given the running
total after it: a length overrun ranks above a bad response code
(comms.py lines 160-165). -/
def responseStepError (cmdLen total2 : Nat) (r : AxiResponse) : Option PErr :=
  if cmdLen < total2 then some .lengthMismatch
  else if r.resp ≠ OKAY then some .badResponse
  else none

/-- The per-consumed-response errors for a FIFO, stopping once the running
total reaches `cmdLen`. -/
def stepErrorList (cmdLen : Nat) : List AxiResponse → Nat → List (Option PErr)
  | [], _ => []
  | r :: rest, total =>
      if total < cmdLen then
        responseStepError cmdLen (total + r.length) r ::
          stepErrorList cmdLen rest (total + r.length)
      else []

/-- Whether the FIFO is exhausted before the running total covers
`cmdLen`. -/
def exhaustsAt (cmdLen : Nat) : List AxiResponse → Nat → Bool
  | [], total => total < cmdLen
  | r :: rest, total =>
      if total < cmdLen then exhaustsAt cmdLen rest (total + r.length)
      else false

/-- How many responses the front of the FIFO contributes before the running
total covers `cmdLen` (all of them if it never does). -/
def coveringCount (cmdLen : Nat) : List AxiResponse → Nat → Nat
  | [], _ => 0
  | r :: rest, total =>
      if total < cmdLen then coveringCount cmdLen rest (total + r.length) + 1
      else 0

/-- The error that `process_responses` actually reports, per the amended
reading of the spec: exhaustion wins outright, otherwise the LAST non-None
per-response error (each new error overwrites the previous one). -/
def lastErrorSpec (cmdLen : Nat) (fifo : List AxiResponse) : Option PErr :=
  if exhaustsAt cmdLen fifo 0 then some .ranOut
  else ((stepErrorList cmdLen fifo 0).reverse).findSome? id

/-- The amended-claim outcome of a boolean read, as a function of the base
processing's error and data: a base error takes priority (result None);
otherwise word 1 means True, word 0 means False, and anything else is a
not-boolean error.  There is no wrong-number-of-results case: base
processing always hands over exactly one element when it returns. -/
def booleanOutcomeSpec (e : Option PErr) (result : List Val) :
    Option PErr × Val :=
  match e with
  | some ex => (some ex, .vnone)
  | none =>
      match result with
      | [Val.vint n] =>
          if n = 1 then (none, .vbool true)
          else if n = 0 then (none, .vbool false)
          else (some .notBoolean, .vnone)
      | _ => (some .notBoolean, .vnone)

/-- The spec's claimed per-beat effective address: `start_address` for
constant-address commands, else `start_address + i*stride` with stride 1
when addressing by word and 4 otherwise (spec section 4.1). -/
def claimedBeatAddress (ac : AxiCommand) (i : Nat) : Nat :=
  if ac.constant_address then ac.start_address
  else ac.start_address + i * (if ac.address_by_word then 1 else 4)

/-- The per-beat address that `dicts.py` and `NamedPipeHandler` actually
compute: always `start_address + i` for non-constant-address commands. -/
def wordBeatAddress (ac : AxiCommand) (i : Nat) : Nat :=
  if ac.constant_address then ac.start_address else ac.start_address + i

/-! ## Concrete fixtures for counterexamples and witnesses -/

/-- A constant-address single-beat read command (the shape built by
`GetUnsignedCommand` / `GetBooleanCommand`). -/
def readCmd1 : AxiCommand :=
  { start_address := 0, length := 1, readorwrite := .read, data := none,
    constant_address := true, address_by_word := true }

/-- A two-beat incrementing read command. -/
def readCmd2 : AxiCommand :=
  { start_address := 0, length := 2, readorwrite := .read, data := none,
    constant_address := false, address_by_word := true }

/-- A two-beat incrementing byte-addressed read command. -/
def byteReadCmd2 : AxiCommand :=
  { start_address := 100, length := 2, readorwrite := .read, data := none,
    constant_address := false, address_by_word := false }

/-- An OKAY response carrying the word 7. -/
def okayResponse7 : AxiResponse := { length := 1, data := [.vint 7], resp := OKAY }

/-- A two-beat incrementing byte-addressed write command. -/
def byteWriteCmd2 : AxiCommand :=
  { start_address := 100, length := 2, readorwrite := .write,
    data := some [3, 4], constant_address := false, address_by_word := false }

/-- The FIFO-locality property of a command's `process_responses`: it
consumes prefixes of the two FIFOs (leftovers are `drop`s), and re-running
it on exactly the consumed prefixes — extended arbitrarily when the
corresponding FIFO was not emptied — returns the same result and leaves
exactly the extensions. -/
def SplitsCmd (c : Command) : Prop :=
  ∀ rf wf : List AxiResponse,
    ∃ k j, k ≤ rf.length ∧ j ≤ wf.length ∧
      (Command.process_responses c rf wf).2.1 = rf.drop k ∧
      (Command.process_responses c rf wf).2.2 = wf.drop j ∧
      ∀ rext wext : List AxiResponse,
        (rf.drop k = [] → rext = []) → (wf.drop j = [] → wext = []) →
        Command.process_responses c (rf.take k ++ rext) (wf.take j ++ wext)
          = ((Command.process_responses c rf wf).1, rext, wext)

/-- The same FIFO-locality property for the sub-command loop of a
`CombinedCommand`. -/
def SplitsCmds (cs : List Command) : Prop :=
  ∀ rf wf : List AxiResponse,
    ∃ k j, k ≤ rf.length ∧ j ≤ wf.length ∧
      (CombinedCommand.process_responses cs rf wf).2.1 = rf.drop k ∧
      (CombinedCommand.process_responses cs rf wf).2.2 = wf.drop j ∧
      ∀ rext wext : List AxiResponse,
        (rf.drop k = [] → rext = []) → (wf.drop j = [] → wext = []) →
        CombinedCommand.process_responses cs (rf.take k ++ rext)
            (wf.take j ++ wext)
          = ((CombinedCommand.process_responses cs rf wf).1, rext, wext)

end Axilent

namespace Axilent

/-! ## Shared lemmas -/

/-- Whenever `AxiCommand.process_responses` returns (the final assertion
does not fire), the returned data has length exactly `cmd.length`. -/
theorem axi_ok_length (cmd : AxiCommand) (rf wf : List AxiResponse)
    (e : Option PErr) (d : List Val) (rf2 wf2 : List AxiResponse)
    (h : AxiCommand.process_responses cmd rf wf = (.ok (e, d), rf2, wf2)) :
    d.length = cmd.length := by
  unfold AxiCommand.process_responses at h
  rcases hrw : cmd.readorwrite with _ | _ <;> rw [hrw] at h <;>
    dsimp only at h <;> split at h <;> simp_all <;>
    (obtain ⟨⟨-, hd⟩, -⟩ := h) <;> subst hd <;> simp <;> omega

/-! ## Claim theorems -/

/-- C1: the length invariant holds whenever `process_responses` returns
(data is trimmed to exactly `cmd.length`, covering the over-cover case),
BUT in the exhausted case the code does not return at all: with an empty
response FIFO, a length-1 read command trips the internal
`assert len(data) == self.length` (modelled `Except.error ()`) instead of
resolving the command with the recorded 'Ran out of responses' error and
length-1 data, contradicting the spec's stated intent that the trim exist
so that a wrong size never masks the true cause. -/
theorem c1_length_invariant_and_exhausted_crash :
    (∀ (cmd : AxiCommand) (rf wf : List AxiResponse) (e : Option PErr)
       (d : List Val) (rf2 wf2 : List AxiResponse),
       AxiCommand.process_responses cmd rf wf = (.ok (e, d), rf2, wf2) →
         d.length = cmd.length) ∧
    AxiCommand.process_responses readCmd1 [] [] = (.error (), [], []) :=
  ⟨axi_ok_length, rfl⟩

/-- C1 witness: a concrete run in which the command returns and the data
has exactly the command's length. -/
theorem c1_length_invariant_and_exhausted_crash_witness :
    AxiCommand.process_responses readCmd1 [okayResponse7] []
        = (.ok (none, [.vint 7]), [], []) ∧
    ([Val.vint 7]).length = readCmd1.length :=
  ⟨rfl, c1_length_invariant_and_exhausted_crash.1 readCmd1 [okayResponse7] []
    none [.vint 7] [] [] rfl⟩

/-- C2: the output-channel processor re-rolls the throttle decision every
cycle of the inner loop, so `valid`, once asserted for a payload whose
`ready` has not yet been sampled high, can be deasserted again on the next
cycle.  Concretely, with throttle rolls hit-miss-hit and the peer's ready
low in the first two cycles, the driven valid sequence is
`[1, 0, 1]` — asserted, dropped before acceptance, re-asserted — refuting
the claim that valid remains asserted with the same payload until the
payload is accepted. -/
theorem c2_valid_rerolled_after_assertion :
    CocotbHandler.valid_trace [(true, false), (false, false), (true, true)]
      = [true, false, true] := rfl

/-- C7: a `Future` is a tri-state cell starting UNRESOLVED and moving
exactly once to OKAY or ERROR: `result` raises while UNRESOLVED, raises
the stored exception in ERROR, returns the stored value in OKAY; and
`set_result`/`set_exception` on an already-resolved future fail the
`assert state == self.UNRESOLVED` instead of overwriting the outcome. -/
theorem c7_future_triple_state (f : Future) (v : Val) (ex : PErr) :
    (f.stateF ≠ .unresolved →
        f.set_result v = .error () ∧ f.set_exception ex = .error ()) ∧
    (f.stateF = .unresolved → f.result = .error .unresolvedRead) ∧
    (f.stateF = .unresolved → ∃ g, f.set_result v = .ok g ∧
        g.stateF = .okay ∧ g.result = .ok v) ∧
    (f.stateF = .unresolved → ∃ g, f.set_exception ex = .ok g ∧
        g.stateF = .error ∧ g.result = .error (.raised (some ex))) ∧
    (f.stateF = .okay → f.result = .ok f.result_value) ∧
    (f.stateF = .error → f.result = .error (.raised f.exception_value)) := by
  unfold Future.set_result Future.set_exception Future.result
  rcases hs : f.stateF with _ | _ | _ <;> simp [hs]

/-- C7 witness: a fresh future is unresolved and resolves once each way;
a future already in the OKAY state rejects further resolution. -/
theorem c7_future_triple_state_witness :
    (Future.result Future.init = .error .unresolvedRead) ∧
    (∃ g, Future.init.set_result (.vint 3) = .ok g ∧
        g.stateF = .okay ∧ g.result = .ok (.vint 3)) ∧
    (∃ g, Future.init.set_exception .badResponse = .ok g ∧
        g.stateF = .error ∧
        g.result = .error (.raised (some .badResponse))) ∧
    ((Future.mk (.vint 3) none .okay).set_result (.vint 4) = .error () ∧
     (Future.mk (.vint 3) none .okay).set_exception .badResponse
        = .error ()) :=
  ⟨(c7_future_triple_state Future.init (.vint 3) .badResponse).2.1 rfl,
   (c7_future_triple_state Future.init (.vint 3) .badResponse).2.2.1 rfl,
   (c7_future_triple_state Future.init (.vint 3) .badResponse).2.2.2.1 rfl,
   (c7_future_triple_state (Future.mk (.vint 3) none .okay)
      (.vint 4) .badResponse).1 (by decide)⟩

/-- C8: the convenience single-beat `write` (and `read`) returns the
beat's data exactly when the resolved response code is OKAY, and raises a
bad-response error carrying the offending code exactly when it is not. -/
theorem c8_write_read_bad_response (response : Nat) (data : Val) :
    (CocotbHandler.write_result response data = .ok data ↔ response = OKAY) ∧
    (response ≠ OKAY →
        CocotbHandler.write_result response data = .error response) ∧
    (CocotbHandler.read_result response data = .ok data ↔ response = OKAY) ∧
    (response ≠ OKAY →
        CocotbHandler.read_result response data = .error response) := by
  unfold CocotbHandler.write_result CocotbHandler.read_result
  by_cases h : response = OKAY <;> simp [h]

/-- C8 witness: response code OKAY returns the data; response code SLVERR
raises carrying the code 2. -/
theorem c8_write_read_bad_response_witness :
    CocotbHandler.write_result OKAY (.vint 9) = .ok (.vint 9) ∧
    CocotbHandler.write_result SLVERR (.vint 9) = .error SLVERR ∧
    CocotbHandler.read_result SLVERR (.vint 9) = .error SLVERR :=
  ⟨(c8_write_read_bad_response OKAY (.vint 9)).1.mpr rfl,
   (c8_write_read_bad_response SLVERR (.vint 9)).2.1 (by decide),
   (c8_write_read_bad_response SLVERR (.vint 9)).2.2.2 (by decide)⟩

/-- C9: for values strictly between `-2^32` and `2^32`,
`SetSignedsCommand` encodes each negative value `v` as `v + 2^32` and
leaves non-negative values unchanged; the encoded words are exactly the
two's-complement residues (`w % 2^32 = v % 2^32` with `0 ≤ w < 2^32`) and
all satisfy the `SetUnsignedsCommand` assertion `value < 2^32`. -/
theorem c9_signed_encoding (values : List Int)
    (h : ∀ v ∈ values, -(2 ^ 32) < v ∧ v < 2 ^ 32) :
    SetSignedsCommand.unsigneds values
        = values.map (fun v => if v < 0 then v + 2 ^ 32 else v)
  ∧ List.Forall₂
      (fun v w => 0 ≤ w ∧ w < 2 ^ 32 ∧ w % (2 ^ 32) = v % (2 ^ 32))
      values (SetSignedsCommand.unsigneds values)
  ∧ SetUnsignedsCommand.values_ok (SetSignedsCommand.unsigneds values)
      = true := by
  have hpow : (2 : Int) ^ 32 = 4294967296 := by norm_num
  refine ⟨rfl, ?_, ?_⟩
  · unfold SetSignedsCommand.unsigneds
    induction values with
    | nil => exact List.Forall₂.nil
    | cons v vs ih =>
        simp only [List.map_cons]
        refine List.Forall₂.cons ?_ (ih (fun x hx => h x (by simp [hx])))
        obtain ⟨h1, h2⟩ := h v (by simp)
        rw [hpow] at h1 h2 ⊢
        split_ifs with hv <;> refine ⟨by omega, by omega, by omega⟩
  · simp only [SetUnsignedsCommand.values_ok, SetSignedsCommand.unsigneds,
      List.all_eq_true, List.mem_map, decide_eq_true_eq]
    rintro w ⟨v, hv, rfl⟩
    obtain ⟨h1, h2⟩ := h v hv
    rw [hpow] at h1 h2 ⊢
    split_ifs with hneg <;> omega

/-- C9 witness: the value list `[-1, 5]` satisfies the bounds and encodes
to `[2^32 - 1, 5]`. -/
theorem c9_signed_encoding_witness :
    (∀ v ∈ [(-1 : Int), 5], -(2 ^ 32) < v ∧ v < 2 ^ 32) ∧
    List.Forall₂
      (fun v w => 0 ≤ w ∧ w < 2 ^ 32 ∧ w % (2 ^ 32) = v % (2 ^ 32))
      [(-1 : Int), 5] (SetSignedsCommand.unsigneds [-1, 5]) ∧
    SetUnsignedsCommand.values_ok (SetSignedsCommand.unsigneds [-1, 5])
      = true :=
  ⟨by decide,
   (c9_signed_encoding [-1, 5] (by decide)).2.1,
   (c9_signed_encoding [-1, 5] (by decide)).2.2⟩

theorem orO_assoc {α : Type} (a b c : Option α) :
    orO (orO a b) c = orO a (orO b c) := by
  cases a <;> rfl

theorem orO_none_right {α : Type} (a : Option α) : orO a none = a := by
  cases a <;> rfl

theorem findSome?_id_append {α : Type} (l1 l2 : List (Option α)) :
    (l1 ++ l2).findSome? id = orO (l1.findSome? id) (l2.findSome? id) := by
  induction l1 with
  | nil => rfl
  | cons a l ih =>
      cases a <;> simp [List.findSome?, ih, orO]

theorem findSome?_id_singleton {α : Type} (a : Option α) :
    ([a]).findSome? id = a := by
  cases a <;> rfl

/-- The error and leftover FIFO that the `process_responses` while-loop
produces, characterized against the spec-side functions: exhaustion wins,
otherwise the LAST per-response error (with the incoming `e` as fallback),
and exactly the covering prefix of the FIFO is consumed. -/
theorem responseLoop_error_spec (cmdLen : Nat) :
    ∀ (fifo : List AxiResponse) (total : Nat) (acc : List Val)
      (e : Option PErr),
      (AxiCommand.responseLoop cmdLen fifo total acc e).1
          = (if exhaustsAt cmdLen fifo total then some .ranOut
             else orO (((stepErrorList cmdLen fifo total).reverse).findSome? id) e)
    ∧ (AxiCommand.responseLoop cmdLen fifo total acc e).2.2
          = fifo.drop (coveringCount cmdLen fifo total) := by
  intro fifo
  induction fifo with
  | nil =>
      intro total acc e
      by_cases h : total < cmdLen <;>
        simp [AxiCommand.responseLoop, exhaustsAt, stepErrorList,
          coveringCount, h, orO]
  | cons r rest ih =>
      intro total acc e
      by_cases h : total < cmdLen
      · have he :
            (if cmdLen < total + r.length then some PErr.lengthMismatch
             else if r.resp ≠ OKAY then some PErr.badResponse else e)
              = orO (responseStepError cmdLen (total + r.length) r) e := by
          unfold responseStepError
          split_ifs <;> simp_all [orO]
        obtain ⟨ih1, ih2⟩ := ih (total + r.length) (acc ++ r.data)
          (orO (responseStepError cmdLen (total + r.length) r) e)
        constructor
        · simp only [AxiCommand.responseLoop, if_pos h, he, ih1,
            exhaustsAt, stepErrorList, if_pos h]
          split_ifs with hex
          · rfl
          · rw [List.reverse_cons, findSome?_id_append,
              findSome?_id_singleton, orO_assoc]
        · simp only [AxiCommand.responseLoop, if_pos h, he, ih2,
            coveringCount, if_pos h, List.drop_succ_cons]
      · simp [AxiCommand.responseLoop, exhaustsAt, stepErrorList,
          coveringCount, h, orO]

/-- C3 counterexample: a two-beat read whose FIFO holds a SLVERR response
followed by an over-long OKAY response.  The first error encountered is
the bad response, but `process_responses` reports the length mismatch
raised by the second response — the LAST error encountered, not the
first, because each new error overwrites `e`. -/
theorem c3_counterexample :
    AxiCommand.process_responses readCmd2
        [⟨1, [.vint 5], SLVERR⟩, ⟨2, [.vint 6, .vint 7], OKAY⟩] []
      = (.ok (some .lengthMismatch, [.vint 5, .vint 6]), [], []) ∧
    stepErrorList readCmd2.length
        [⟨1, [.vint 5], SLVERR⟩, ⟨2, [.vint 6, .vint 7], OKAY⟩] 0
      = [some .badResponse, some .lengthMismatch] ∧
    some PErr.lengthMismatch ≠ some PErr.badResponse :=
  ⟨rfl, rfl, by decide⟩

/-- C3 (amended): whenever `process_responses` returns, the reported
error is the LAST error encountered over the consumed prefix (exhaustion
winning outright), later errors overwriting earlier ones; and — return or
crash — the command consumes exactly the prefix of the relevant FIFO
needed to cover its length (all of it if the FIFO under-covers), leaving
the other FIFO untouched. -/
theorem c3_last_error_wins (cmd : AxiCommand) (rf wf : List AxiResponse) :
    ((AxiCommand.process_responses cmd rf wf).2
        = match cmd.readorwrite with
          | .read => (rf.drop (coveringCount cmd.length rf 0), wf)
          | .write => (rf, wf.drop (coveringCount cmd.length wf 0))) ∧
    (∀ (e : Option PErr) (d : List Val) (rf2 wf2 : List AxiResponse),
      AxiCommand.process_responses cmd rf wf = (.ok (e, d), rf2, wf2) →
        e = lastErrorSpec cmd.length
              (match cmd.readorwrite with
               | .read => rf
               | .write => wf)) := by
  constructor
  · unfold AxiCommand.process_responses
    rcases hrw : cmd.readorwrite with _ | _ <;> dsimp only <;>
      rw [(responseLoop_error_spec cmd.length _ 0 [] none).2]
  · intro e d rf2 wf2 h
    unfold AxiCommand.process_responses at h
    rcases hrw : cmd.readorwrite with _ | _ <;> rw [hrw] at h <;>
      dsimp only at h <;> split at h <;> simp_all [lastErrorSpec] <;>
      rw [← h.1.1, (responseLoop_error_spec cmd.length _ 0 [] none).1] <;>
      simp [orO_none_right]

/-- C3 witness: on the counterexample FIFO the reported error equals the
spec-side last error. -/
theorem c3_last_error_wins_witness :
    some PErr.lengthMismatch
      = lastErrorSpec readCmd2.length
          [⟨1, [.vint 5], SLVERR⟩, ⟨2, [.vint 6, .vint 7], OKAY⟩] :=
  (c3_last_error_wins readCmd2
      [⟨1, [.vint 5], SLVERR⟩, ⟨2, [.vint 6, .vint 7], OKAY⟩] []).2
    (some .lengthMismatch) [.vint 5, .vint 6] [] [] rfl

/-- C10 counterexample: a single consumed response whose data word equals
1 but whose response code is SLVERR.  The claim says the command resolves
to True whenever the word equals 1; the code instead resolves with the
bad-response error and result None, because a base-processing error takes
priority over the word's value. -/
theorem c10_counterexample :
    GetBooleanCommand.process_responses 0 [⟨1, [.vint 1], SLVERR⟩] []
      = (.ok (some .badResponse, .vnone), [], []) ∧
    some PErr.badResponse ≠ (none : Option PErr) :=
  ⟨rfl, by decide⟩

/-- C10 (amended): whenever the base processing returns `(e, result)`,
`result` has exactly one element (so the wrong-number-of-results branch is
unreachable), and the boolean command resolves to True when `e` is None
and the word is 1, to False when `e` is None and the word is 0, and
otherwise to an error with result None — either the base error `e` or,
for a word that is neither 0 nor 1, the not-boolean error. -/
theorem c10_boolean_mapping (address : Nat) (rf wf : List AxiResponse)
    (e : Option PErr) (result : List Val) (rf2 wf2 : List AxiResponse)
    (h : AxiCommand.process_responses (GetBooleanCommand.axi address) rf wf
          = (.ok (e, result), rf2, wf2)) :
    result.length = 1 ∧
    GetBooleanCommand.process_responses address rf wf
      = (.ok (booleanOutcomeSpec e result), rf2, wf2) := by
  have hl : result.length = 1 :=
    axi_ok_length (GetBooleanCommand.axi address) rf wf e result rf2 wf2 h
  refine ⟨hl, ?_⟩
  unfold GetBooleanCommand.process_responses
  rw [h]
  obtain ⟨v, hv⟩ := List.length_eq_one.mp hl
  subst hv
  cases e with
  | some ex => rfl
  | none => cases v <;> simp [booleanOutcomeSpec]

/-- C10 witness: a single OKAY response with word 1 resolves to True. -/
theorem c10_boolean_mapping_witness :
    ([Val.vint 1]).length = 1 ∧
    GetBooleanCommand.process_responses 0 [⟨1, [.vint 1], OKAY⟩] []
      = (.ok (none, .vbool true), [], []) :=
  c10_boolean_mapping 0 [⟨1, [.vint 1], OKAY⟩] [] none [.vint 1] [] [] rfl

/-- The dictionary that the read branch of `axi_commands_to_axi_dicts`
builds for beat `i`. -/
theorem axi_command_to_dict_read (ac : AxiCommand) (i : Nat)
    (hrw : ac.readorwrite = .read) :
    axi_command_to_dict ac i
      = .ok { make_axi4lite_m2s_dict_ready with
              araddr := wordBeatAddress ac i, arvalid := 1 } := by
  unfold axi_command_to_dict wordBeatAddress
  rw [hrw]

/-- Any dictionary the write branch of `axi_commands_to_axi_dicts`
successfully builds for beat `i` carries the word-stride address. -/
theorem axi_command_to_dict_write_awaddr (ac : AxiCommand) (i : Nat)
    (d : M2SDict) (hrw : ac.readorwrite = .write)
    (h : axi_command_to_dict ac i = .ok d) :
    d.awaddr = wordBeatAddress ac i := by
  unfold axi_command_to_dict at h
  rw [hrw] at h
  rcases hdata : ac.data with _ | l <;> rw [hdata] at h <;> dsimp only at h
  · exact absurd h (by simp)
  · rcases hl : l[i]? with _ | w <;> rw [hl] at h <;> dsimp only at h
    · exact absurd h (by simp)
    · split at h
      · exact absurd h (by simp)
      · injection h with h2
        subst h2
        simp [wordBeatAddress]

/-- The read branch of `axi_command_beat_dicts` never raises and builds one
read dictionary per index. -/
theorem axi_command_beat_dicts_read (ac : AxiCommand)
    (hrw : ac.readorwrite = .read) :
    ∀ is : List Nat,
      axi_command_beat_dicts ac is
        = .ok (is.map (fun i =>
            { make_axi4lite_m2s_dict_ready with
              araddr := wordBeatAddress ac i, arvalid := 1 })) := by
  intro is
  induction is with
  | nil => rfl
  | cons i is ih =>
      unfold axi_command_beat_dicts
      rw [axi_command_to_dict_read ac i hrw, ih]
      rfl

/-- Every successful run of `axi_command_beat_dicts` on a write command
produces dictionaries whose `awaddr`s are the word-stride addresses. -/
theorem axi_command_beat_dicts_write_awaddr (ac : AxiCommand)
    (hrw : ac.readorwrite = .write) :
    ∀ (is : List Nat) (ds : List M2SDict),
      axi_command_beat_dicts ac is = .ok ds →
        ds.map M2SDict.awaddr = is.map (wordBeatAddress ac) := by
  intro is
  induction is with
  | nil =>
      intro ds h
      cases h
      rfl
  | cons i is ih =>
      intro ds h
      unfold axi_command_beat_dicts at h
      rcases hd : axi_command_to_dict ac i with _ | d <;>
        rw [hd] at h <;> dsimp only at h
      · exact absurd h (by simp)
      · rcases hrest : axi_command_beat_dicts ac is with _ | rest <;>
          rw [hrest] at h <;> dsimp only at h
        · exact absurd h (by simp)
        · injection h with h2
          subst h2
          simp [axi_command_to_dict_write_awaddr ac i d hrw hd, ih rest hrest]

/-- C4 counterexample: a non-constant byte-addressed (`address_by_word =
False`) two-beat read starting at address 100.  The claim says beat 1's
effective address is `100 + 1*4 = 104` in all three decomposition sites;
`axi_commands_to_axi_dicts` actually emits `araddr = 101`. -/
theorem c4_counterexample :
    (axi_commands_to_axi_dicts [.axi byteReadCmd2]).map
        (fun ds => ds.map M2SDict.araddr) = .ok [100, 101] ∧
    claimedBeatAddress byteReadCmd2 1 = 104 ∧ (101 : Nat) ≠ 104 :=
  ⟨rfl, rfl, by decide⟩

/-- C4 (amended): `CocotbHandler.send` computes beat `i`'s address as
`start_address` for constant-address commands and otherwise
`start_address + i*stride` with stride 1 (word addressing) or 4 (byte
addressing) — exactly the spec's formula; but `axi_commands_to_axi_dicts`
and `NamedPipeHandler.add_axi_command` always advance the address by 1 per
beat, ignoring `address_by_word` (constant-address commands reuse
`start_address` everywhere). -/
theorem c4_beat_addresses (ac : AxiCommand) :
    CocotbHandler.read_beats ac
        = (List.range ac.length).map (claimedBeatAddress ac)
  ∧ (CocotbHandler.write_beats ac).map Prod.fst
        = (List.range (ac.data.getD []).length).map (claimedBeatAddress ac)
  ∧ (ac.readorwrite = .read →
      (axi_commands_to_axi_dicts [.axi ac]).map
          (fun ds => ds.map M2SDict.araddr)
        = .ok ((List.range ac.length).map (wordBeatAddress ac)))
  ∧ (∀ ds, ac.readorwrite = .write →
      axi_commands_to_axi_dicts [.axi ac] = .ok ds →
        ds.map M2SDict.awaddr
          = (List.range ac.length).map (wordBeatAddress ac))
  ∧ (NamedPipeHandler.add_axi_command ac).1
        = (match ac.readorwrite with
           | .read => (List.range ac.length).map (wordBeatAddress ac)
           | .write => [])
  ∧ (NamedPipeHandler.add_axi_command ac).2.1
        = (match ac.readorwrite with
           | .read => []
           | .write =>
               (List.range (ac.data.getD []).length).map
                 (wordBeatAddress ac)) := by
  refine ⟨?_, ?_, ?_, ?_, ?_, ?_⟩
  · unfold CocotbHandler.read_beats claimedBeatAddress
    refine List.map_congr_left (fun i _ => ?_)
    rcases hc : ac.constant_address <;> rcases hw : ac.address_by_word <;>
      simp [hc, hw, mul_one]
  · unfold CocotbHandler.write_beats
    rw [List.map_map]
    rw [show (Prod.fst ∘ fun od : Nat × Int =>
        (if ac.constant_address then ac.start_address
         else if ac.address_by_word then ac.start_address + od.1
         else ac.start_address + od.1 * 4, od.2))
      = ((fun i : Nat =>
          if ac.constant_address then ac.start_address
          else if ac.address_by_word then ac.start_address + i
          else ac.start_address + i * 4) ∘ Prod.fst) from rfl]
    rw [← List.map_map, List.enum_map_fst]
    refine List.map_congr_left (fun i _ => ?_)
    unfold claimedBeatAddress
    rcases hc : ac.constant_address <;> rcases hw : ac.address_by_word <;>
      simp [hc, hw, mul_one]
  · intro hrw
    unfold axi_commands_to_axi_dicts
    rw [axi_command_beat_dicts_read ac hrw (List.range ac.length)]
    dsimp only [axi_commands_to_axi_dicts, Except.map]
    rw [List.append_nil, List.map_map]
    rfl
  · intro ds hrw h
    unfold axi_commands_to_axi_dicts at h
    rcases hb : axi_command_beat_dicts ac (List.range ac.length)
      with _ | ds0 <;> rw [hb] at h <;>
      dsimp only [axi_commands_to_axi_dicts] at h
    · exact absurd h (by simp)
    · injection h with h2
      subst h2
      rw [List.append_nil]
      exact axi_command_beat_dicts_write_awaddr ac hrw (List.range ac.length)
        ds0 hb
  · unfold NamedPipeHandler.add_axi_command wordBeatAddress
    rcases hrw : ac.readorwrite <;> rfl
  · unfold NamedPipeHandler.add_axi_command
    rcases hrw : ac.readorwrite with _ | _ <;> dsimp only
    rw [show (fun idxd : Nat × Int =>
        if ac.constant_address then ac.start_address
        else ac.start_address + idxd.1)
      = ((fun i : Nat =>
          if ac.constant_address then ac.start_address
          else ac.start_address + i) ∘ Prod.fst) from rfl]
    rw [← List.map_map, List.enum_map_fst]
    rfl

/-- C4 witness: the dictionary addresses of a concrete two-beat read and a
concrete two-beat write command. -/
theorem c4_beat_addresses_witness :
    (axi_commands_to_axi_dicts [.axi byteReadCmd2]).map
        (fun ds => ds.map M2SDict.araddr)
      = .ok ((List.range byteReadCmd2.length).map
              (wordBeatAddress byteReadCmd2)) ∧
    (∃ ds, axi_commands_to_axi_dicts [.axi byteWriteCmd2] = .ok ds ∧
        ds.map M2SDict.awaddr
          = (List.range byteWriteCmd2.length).map
              (wordBeatAddress byteWriteCmd2)) :=
  ⟨(c4_beat_addresses byteReadCmd2).2.2.1 rfl,
   ⟨_, rfl, (c4_beat_addresses byteWriteCmd2).2.2.2.1 _ rfl rfl⟩⟩

theorem findSome?_id_cons {α : Type} (a : Option α) (l : List (Option α)) :
    (a :: l).findSome? id = orO a (l.findSome? id) := by
  cases a <;> simp [List.findSome?, orO]

/-- C5: `CombinedCommand.process_responses` runs its sub-commands in list
order against the same two shared FIFOs — the very same threading the
handler performs command by command, so sub-commands consume disjoint
consecutive prefixes — and, whenever every sub-command returns, it
reports the FIRST sub-command error (None if all succeed) together with
the in-order list of every sub-command's result.  Escaping exceptions
and final FIFO states agree with the per-command run exactly. -/
theorem c5_combined_first_error (cs : List Command)
    (rf wf : List AxiResponse) :
    (CombinedCommand.process_responses cs rf wf).2
        = (DictCommandHandler.process_responses cs rf wf).2
  ∧ (∀ u rf2 wf2,
      CombinedCommand.process_responses cs rf wf = (.error u, rf2, wf2)
        ↔ DictCommandHandler.process_responses cs rf wf
            = (.error u, rf2, wf2))
  ∧ (∀ outs rf2 wf2,
      DictCommandHandler.process_responses cs rf wf = (.ok outs, rf2, wf2) →
        CombinedCommand.process_responses cs rf wf
          = (.ok ((outs.map Prod.fst).findSome? id, outs.map Prod.snd),
             rf2, wf2)) := by
  induction cs generalizing rf wf with
  | nil =>
      refine ⟨rfl, ?_, ?_⟩
      · intro u rf2 wf2
        constructor <;> intro h <;>
          simp [CombinedCommand.process_responses,
            DictCommandHandler.process_responses] at h
      · intro outs rf2 wf2 h
        simp only [DictCommandHandler.process_responses,
          Prod.mk.injEq] at h
        obtain ⟨h1, h2, h3⟩ := h
        injection h1 with h1
        subst h1 h2 h3
        rfl
  | cons c cs ih =>
      rcases hc : Command.process_responses c rf wf with ⟨res, rfA, wfA⟩
      cases res with
      | error u0 =>
          have hcomb :
              CombinedCommand.process_responses (c :: cs) rf wf
                = (.error u0, rfA, wfA) := by
            unfold CombinedCommand.process_responses
            rw [hc]
          have hhand :
              DictCommandHandler.process_responses (c :: cs) rf wf
                = (.error u0, rfA, wfA) := by
            unfold DictCommandHandler.process_responses
            rw [hc]
          refine ⟨by rw [hcomb, hhand], ?_, ?_⟩
          · intro u rf2 wf2
            cases u
            cases u0
            rw [hcomb, hhand]
            constructor <;> intro h <;>
              (simp only [Prod.mk.injEq] at h ⊢; exact ⟨trivial, h.2⟩)
          · intro outs rf2 wf2 h
            rw [hhand] at h
            exact absurd h (by simp)
      | ok ev =>
          obtain ⟨e, v⟩ := ev
          obtain ⟨ih1, ih2, ih3⟩ := ih rfA wfA
          rcases hT : DictCommandHandler.process_responses cs rfA wfA
            with ⟨resT, rfB, wfB⟩
          cases resT with
          | error u0 =>
              have hhand :
                  DictCommandHandler.process_responses (c :: cs) rf wf
                    = (.error u0, rfB, wfB) := by
                unfold DictCommandHandler.process_responses
                rw [hc]
                dsimp only
                rw [hT]
              have hcombT :
                  CombinedCommand.process_responses cs rfA wfA
                    = (.error u0, rfB, wfB) := (ih2 u0 rfB wfB).mpr hT
              have hcomb :
                  CombinedCommand.process_responses (c :: cs) rf wf
                    = (.error u0, rfB, wfB) := by
                unfold CombinedCommand.process_responses
                rw [hc]
                dsimp only
                rw [hcombT]
              refine ⟨by rw [hcomb, hhand], ?_, ?_⟩
              · intro u rf2 wf2
                cases u
                cases u0
                rw [hcomb, hhand]
                constructor <;> intro h <;>
                  (simp only [Prod.mk.injEq] at h ⊢; exact ⟨trivial, h.2⟩)
              · intro outs rf2 wf2 h
                rw [hhand] at h
                exact absurd h (by simp)
          | ok outsT =>
              have hhand :
                  DictCommandHandler.process_responses (c :: cs) rf wf
                    = (.ok ((e, v) :: outsT), rfB, wfB) := by
                unfold DictCommandHandler.process_responses
                rw [hc]
                dsimp only
                rw [hT]
              have hcombT :
                  CombinedCommand.process_responses cs rfA wfA
                    = (.ok ((outsT.map Prod.fst).findSome? id,
                        outsT.map Prod.snd), rfB, wfB) :=
                ih3 outsT rfB wfB hT
              have hcomb :
                  CombinedCommand.process_responses (c :: cs) rf wf
                    = (.ok (orO e ((outsT.map Prod.fst).findSome? id),
                        v :: outsT.map Prod.snd), rfB, wfB) := by
                unfold CombinedCommand.process_responses
                rw [hc]
                dsimp only
                rw [hcombT]
              refine ⟨by rw [hcomb, hhand], ?_, ?_⟩
              · intro u rf2 wf2
                rw [hcomb, hhand]
                constructor <;> intro h <;> exact absurd h (by simp)
              · intro outs rf2 wf2 h
                rw [hhand] at h
                simp only [Prod.mk.injEq] at h
                obtain ⟨h1, h2, h3⟩ := h
                injection h1 with h1
                subst h1 h2 h3
                rw [hcomb]
                simp [findSome?_id_cons]

/-- A FIFO-less restatement of the exit branch of the while loop: once the
running total covers the command length, nothing further is consumed. -/
theorem responseLoop_ge (cmdLen : Nat) (fifo : List AxiResponse)
    (total : Nat) (acc : List Val) (e : Option PErr)
    (h : ¬ total < cmdLen) :
    AxiCommand.responseLoop cmdLen fifo total acc e = (e, acc, fifo) := by
  cases fifo <;> simp [AxiCommand.responseLoop, h]

/-- The while loop consumes a prefix of the FIFO: the leftover is a
`drop`, and re-running the loop on the consumed prefix alone — extended by
anything at all if the leftover is nonempty — reproduces the same error
and data while leaving exactly the extension. -/
theorem responseLoop_split (cmdLen : Nat) :
    ∀ (fifo : List AxiResponse) (total : Nat) (acc : List Val)
      (e : Option PErr),
      ∃ k, k ≤ fifo.length ∧
        (AxiCommand.responseLoop cmdLen fifo total acc e).2.2 = fifo.drop k ∧
        ∀ ext : List AxiResponse, (fifo.drop k = [] → ext = []) →
          AxiCommand.responseLoop cmdLen (fifo.take k ++ ext) total acc e
            = ((AxiCommand.responseLoop cmdLen fifo total acc e).1,
               (AxiCommand.responseLoop cmdLen fifo total acc e).2.1, ext) := by
  intro fifo
  induction fifo with
  | nil =>
      intro total acc e
      refine ⟨0, Nat.le_refl _,
        by by_cases h : total < cmdLen <;>
          simp [AxiCommand.responseLoop, h], ?_⟩
      intro ext hext
      rw [hext rfl]
      by_cases h : total < cmdLen <;> simp [AxiCommand.responseLoop, h]
  | cons r rest ih =>
      intro total acc e
      by_cases h : total < cmdLen
      · obtain ⟨k, hk, hdrop, hext⟩ := ih (total + r.length) (acc ++ r.data)
          (if cmdLen < total + r.length then some .lengthMismatch
           else if r.resp ≠ OKAY then some .badResponse
           else e)
        refine ⟨k + 1, by simpa using hk, ?_, ?_⟩
        · simp only [AxiCommand.responseLoop, if_pos h, List.drop_succ_cons]
          exact hdrop
        · intro ext hcond
          simp only [List.take_succ_cons, List.cons_append,
            AxiCommand.responseLoop, if_pos h, List.drop_succ_cons] at *
          exact hext ext hcond
      · refine ⟨0, Nat.zero_le _, by simp [responseLoop_ge cmdLen _ _ _ _ h], ?_⟩
        intro ext hcond
        rw [List.take_zero, List.nil_append,
          responseLoop_ge cmdLen _ _ _ _ h, responseLoop_ge cmdLen _ _ _ _ h]

/-- `AxiCommand.process_responses` consumes a prefix of its relevant FIFO
and passes the other FIFO through: the leftovers are `drop`s of the
inputs, and running the command on exactly the consumed prefixes — with
arbitrary extensions when a FIFO was not emptied — returns the same
result, leaving exactly the extensions. -/
theorem axi_process_responses_split (cmd : AxiCommand)
    (rf wf : List AxiResponse) :
    ∃ k j, k ≤ rf.length ∧ j ≤ wf.length ∧
      (AxiCommand.process_responses cmd rf wf).2.1 = rf.drop k ∧
      (AxiCommand.process_responses cmd rf wf).2.2 = wf.drop j ∧
      ∀ rext wext : List AxiResponse,
        (rf.drop k = [] → rext = []) → (wf.drop j = [] → wext = []) →
        AxiCommand.process_responses cmd (rf.take k ++ rext)
            (wf.take j ++ wext)
          = ((AxiCommand.process_responses cmd rf wf).1, rext, wext) := by
  rcases hrw : cmd.readorwrite with _ | _
  · obtain ⟨k, hk, hdrop, hext⟩ := responseLoop_split cmd.length rf 0 [] none
    refine ⟨k, 0, hk, Nat.zero_le _, ?_, ?_, ?_⟩
    · unfold AxiCommand.process_responses
      rw [hrw]
      exact hdrop
    · unfold AxiCommand.process_responses
      rw [hrw]
      dsimp only
      rw [List.drop_zero]
    · intro rext wext hr _
      unfold AxiCommand.process_responses
      rw [hrw]
      dsimp only
      rw [List.take_zero, List.nil_append, hext rext hr]
  · obtain ⟨j, hj, hdrop, hext⟩ := responseLoop_split cmd.length wf 0 [] none
    refine ⟨0, j, Nat.zero_le _, hj, ?_, ?_, ?_⟩
    · unfold AxiCommand.process_responses
      rw [hrw]
      dsimp only
      rw [List.drop_zero]
    · unfold AxiCommand.process_responses
      rw [hrw]
      exact hdrop
    · intro rext wext _ hw
      unfold AxiCommand.process_responses
      rw [hrw]
      dsimp only
      rw [List.take_zero, List.nil_append, hext wext hw]

/-- C5 witness: two single-beat reads combined over a shared read FIFO of
two OKAY responses; each consumes its own response, no error, both
results reported in order. -/
theorem c5_combined_first_error_witness :
    DictCommandHandler.process_responses [.axi readCmd1, .axi readCmd1]
        [okayResponse7, okayResponse7] []
      = (.ok [(none, .vlist [.vint 7]), (none, .vlist [.vint 7])],
         [], []) ∧
    CombinedCommand.process_responses [.axi readCmd1, .axi readCmd1]
        [okayResponse7, okayResponse7] []
      = (.ok (none, [.vlist [.vint 7], .vlist [.vint 7]]), [], []) :=
  ⟨rfl,
   (c5_combined_first_error [.axi readCmd1, .axi readCmd1]
      [okayResponse7, okayResponse7] []).2.2
     [(none, .vlist [.vint 7]), (none, .vlist [.vint 7])] [] [] rfl⟩

theorem splits_axi (ac : AxiCommand) : SplitsCmd (.axi ac) := by
  intro rf wf
  obtain ⟨k, j, hk, hj, hd1, hd2, hext⟩ := axi_process_responses_split ac rf wf
  rcases hp : AxiCommand.process_responses ac rf wf with ⟨res, rfA, wfA⟩
  rw [hp] at hd1 hd2
  dsimp only at hd1 hd2
  refine ⟨k, j, hk, hj, ?_, ?_, ?_⟩
  · simp only [Command.process_responses]
    rw [hp]
    rcases res with u | ⟨e, data⟩ <;> dsimp only <;> exact hd1
  · simp only [Command.process_responses]
    rw [hp]
    rcases res with u | ⟨e, data⟩ <;> dsimp only <;> exact hd2
  · intro rext wext hr hw
    simp only [Command.process_responses]
    rw [hext rext wext hr hw, hp]
    rcases res with u | ⟨e, data⟩ <;> rfl

theorem splits_getBoolean (address : Nat) :
    SplitsCmd (.getBoolean address) := by
  intro rf wf
  obtain ⟨k, j, hk, hj, hd1, hd2, hext⟩ :=
    axi_process_responses_split (GetBooleanCommand.axi address) rf wf
  rcases hp : AxiCommand.process_responses (GetBooleanCommand.axi address)
      rf wf with ⟨res, rfA, wfA⟩
  rw [hp] at hd1 hd2
  dsimp only at hd1 hd2
  refine ⟨k, j, hk, hj, ?_, ?_, ?_⟩
  · simp only [Command.process_responses, GetBooleanCommand.process_responses]
    rw [hp]
    rcases res with u | ⟨e, result⟩ <;> dsimp only <;> exact hd1
  · simp only [Command.process_responses, GetBooleanCommand.process_responses]
    rw [hp]
    rcases res with u | ⟨e, result⟩ <;> dsimp only <;> exact hd2
  · intro rext wext hr hw
    simp only [Command.process_responses, GetBooleanCommand.process_responses]
    rw [hext rext wext hr hw, hp]
    rcases res with u | ⟨e, result⟩ <;> rfl

theorem splits_fakeWait : SplitsCmd .fakeWait := by
  intro rf wf
  refine ⟨0, 0, Nat.zero_le _, Nat.zero_le _, by simp
    [Command.process_responses], by simp [Command.process_responses], ?_⟩
  intro rext wext _ _
  simp [Command.process_responses]

theorem splits_cons (c : Command) (cs : List Command)
    (h1 : SplitsCmd c) (h2 : SplitsCmds cs) : SplitsCmds (c :: cs) := by
  intro rf wf
  obtain ⟨k1, j1, hk1, hj1, hd1, hd2, hext1⟩ := h1 rf wf
  rcases hp : Command.process_responses c rf wf with ⟨res, rfA, wfA⟩
  rw [hp] at hd1 hd2
  dsimp only at hd1 hd2
  subst hd1
  subst hd2
  cases res with
  | error u =>
      refine ⟨k1, j1, hk1, hj1, ?_, ?_, ?_⟩
      · simp only [CombinedCommand.process_responses]
        rw [hp]
      · simp only [CombinedCommand.process_responses]
        rw [hp]
      · intro rext wext hr hw
        have hA := hext1 rext wext hr hw
        rw [hp] at hA
        dsimp only at hA
        simp only [CombinedCommand.process_responses]
        rw [hA, hp]
  | ok ev =>
      rcases ev with ⟨e, v⟩
      obtain ⟨k2, j2, hk2, hj2, hd1', hd2', hext2⟩ :=
        h2 (rf.drop k1) (wf.drop j1)
      rw [List.length_drop] at hk2 hj2
      rcases hq : CombinedCommand.process_responses cs (rf.drop k1)
          (wf.drop j1) with ⟨resT, rfB, wfB⟩
      rw [hq] at hd1' hd2'
      dsimp only at hd1' hd2'
      have hdd : (rf.drop k1).drop k2 = rf.drop (k1 + k2) := by
        rw [List.drop_drop, Nat.add_comm]
      have hddw : (wf.drop j1).drop j2 = wf.drop (j1 + j2) := by
        rw [List.drop_drop, Nat.add_comm]
      refine ⟨k1 + k2, j1 + j2, by omega, by omega, ?_, ?_, ?_⟩
      · simp only [CombinedCommand.process_responses]
        rw [hp]
        dsimp only
        rw [hq]
        rcases resT with u2 | ⟨fe, rs⟩ <;> dsimp only <;>
          rw [hd1', hdd]
      · simp only [CombinedCommand.process_responses]
        rw [hp]
        dsimp only
        rw [hq]
        rcases resT with u2 | ⟨fe, rs⟩ <;> dsimp only <;>
          rw [hd2', hddw]
      · intro rext wext hr hw
        have hrext2 : (rf.drop k1).drop k2 = [] → rext = [] := by
          intro h0
          exact hr (by rw [← hdd]; exact h0)
        have hwext2 : (wf.drop j1).drop j2 = [] → wext = [] := by
          intro h0
          exact hw (by rw [← hddw]; exact h0)
        have hrext1 : rf.drop k1 = [] →
            (rf.drop k1).take k2 ++ rext = [] := by
          intro h0
          rw [h0, List.take_nil, List.nil_append]
          exact hrext2 (by rw [h0, List.drop_nil])
        have hwext1 : wf.drop j1 = [] →
            (wf.drop j1).take j2 ++ wext = [] := by
          intro h0
          rw [h0, List.take_nil, List.nil_append]
          exact hwext2 (by rw [h0, List.drop_nil])
        have hA := hext1 ((rf.drop k1).take k2 ++ rext)
          ((wf.drop j1).take j2 ++ wext) hrext1 hwext1
        rw [hp] at hA
        dsimp only at hA
        rw [List.take_add, List.append_assoc, List.take_add wf,
          List.append_assoc]
        simp only [CombinedCommand.process_responses]
        rw [hA, hp]
        dsimp only
        rw [hext2 rext wext hrext2 hwext2, hq]
        rcases resT with u2 | ⟨fe, rs⟩ <;> rfl

theorem splits_nil : SplitsCmds [] := by
  intro rf wf
  refine ⟨0, 0, Nat.zero_le _, Nat.zero_le _, by simp
    [CombinedCommand.process_responses],
    by simp [CombinedCommand.process_responses], ?_⟩
  intro rext wext _ _
  simp [CombinedCommand.process_responses]

theorem splits_combined (cs : List Command) (h : SplitsCmds cs) :
    SplitsCmd (.combined cs) := by
  intro rf wf
  obtain ⟨k, j, hk, hj, hd1, hd2, hext⟩ := h rf wf
  rcases hq : CombinedCommand.process_responses cs rf wf with ⟨res, rfA, wfA⟩
  rw [hq] at hd1 hd2
  dsimp only at hd1 hd2
  refine ⟨k, j, hk, hj, ?_, ?_, ?_⟩
  · simp only [Command.process_responses]
    rw [hq]
    rcases res with u | ⟨fe, rs⟩ <;> dsimp only <;> exact hd1
  · simp only [Command.process_responses]
    rw [hq]
    rcases res with u | ⟨fe, rs⟩ <;> dsimp only <;> exact hd2
  · intro rext wext hr hw
    simp only [Command.process_responses]
    rw [hext rext wext hr hw, hq]
    rcases res with u | ⟨fe, rs⟩ <;> rfl

/-- Every command and command list splits its FIFOs, by strong induction
on size. -/
theorem splits_all (n : Nat) :
    (∀ c : Command, sizeOf c ≤ n → SplitsCmd c) ∧
    (∀ cs : List Command, sizeOf cs ≤ n → SplitsCmds cs) := by
  induction n with
  | zero =>
      constructor
      · intro c hc
        exact absurd hc (by cases c <;> simp)
      · intro cs hcs
        exact absurd hcs (by cases cs <;> simp)
  | succ n ih =>
      constructor
      · intro c hc
        cases c with
        | axi ac => exact splits_axi ac
        | getBoolean a => exact splits_getBoolean a
        | fakeWait => exact splits_fakeWait
        | combined cs =>
            refine splits_combined cs (ih.2 cs ?_)
            simp only [Command.combined.sizeOf_spec] at hc
            omega
      · intro cs hcs
        cases cs with
        | nil => exact splits_nil
        | cons c cs2 =>
            simp only [List.cons.sizeOf_spec] at hcs
            exact splits_cons c cs2 (ih.1 c (by omega))
              (ih.2 cs2 (by omega))

theorem splitsCmd_of (c : Command) : SplitsCmd c :=
  (splits_all (sizeOf c)).1 c (Nat.le_refl _)

/-- C6: responses are matched to commands in submission order.  Every
command's `process_responses` consumes prefixes of the two FIFOs (the
leftovers are `drop`s), its outcome is computed from exactly those
consumed prefixes (running it on just the `take`s yields the same
outcome), and the handler then feeds the remainders — never reordered —
to the following commands: on success the per-command outcomes are
prepended in submission order, and an escaping exception stops the run. -/
theorem c6_fifo_order (c : Command) (cs : List Command)
    (rf wf : List AxiResponse) :
    ∃ k j, k ≤ rf.length ∧ j ≤ wf.length ∧
      (Command.process_responses c rf wf).2.1 = rf.drop k ∧
      (Command.process_responses c rf wf).2.2 = wf.drop j ∧
      Command.process_responses c (rf.take k) (wf.take j)
        = ((Command.process_responses c rf wf).1, [], []) ∧
      (∀ u rf2 wf2,
        Command.process_responses c rf wf = (.error u, rf2, wf2) →
          DictCommandHandler.process_responses (c :: cs) rf wf
            = (.error u, rf.drop k, wf.drop j)) ∧
      (∀ out rf2 wf2,
        Command.process_responses c rf wf = (.ok out, rf2, wf2) →
          (∀ u2 rf3 wf3,
            DictCommandHandler.process_responses cs (rf.drop k) (wf.drop j)
                = (.error u2, rf3, wf3) →
              DictCommandHandler.process_responses (c :: cs) rf wf
                = (.error u2, rf3, wf3)) ∧
          (∀ outs rf3 wf3,
            DictCommandHandler.process_responses cs (rf.drop k) (wf.drop j)
                = (.ok outs, rf3, wf3) →
              DictCommandHandler.process_responses (c :: cs) rf wf
                = (.ok (out :: outs), rf3, wf3))) := by
  obtain ⟨k, j, hk, hj, hd1, hd2, hext⟩ := splitsCmd_of c rf wf
  refine ⟨k, j, hk, hj, hd1, hd2, ?_, ?_, ?_⟩
  · have hA := hext [] [] (fun _ => rfl) (fun _ => rfl)
    rw [List.append_nil, List.append_nil] at hA
    exact hA
  · intro u rf2 wf2 h
    have hrf2 := hd1
    have hwf2 := hd2
    rw [h] at hrf2 hwf2
    dsimp only at hrf2 hwf2
    simp only [DictCommandHandler.process_responses]
    rw [h]
    dsimp only
    rw [hrf2, hwf2]
  · intro out rf2 wf2 h
    have hrf2 := hd1
    have hwf2 := hd2
    rw [h] at hrf2 hwf2
    dsimp only at hrf2 hwf2
    subst hrf2
    subst hwf2
    constructor
    · intro u2 rf3 wf3 ht
      simp only [DictCommandHandler.process_responses]
      rw [h]
      dsimp only
      rw [ht]
    · intro outs rf3 wf3 ht
      simp only [DictCommandHandler.process_responses]
      rw [h]
      dsimp only
      rw [ht]

/-- C6 witness: an under-covered two-beat read command consumes the whole
read FIFO and its escaping assertion stops the handler run. -/
theorem c6_fifo_order_witness :
    DictCommandHandler.process_responses [.axi readCmd2] [okayResponse7] []
      = (.error (), [], []) := by
  obtain ⟨k, j, hk, hj, hd1, hd2, hself, herr, hok⟩ :=
    c6_fifo_order (.axi readCmd2) [] [okayResponse7] []
  have h := herr () [] [] rfl
  have hdk : ([okayResponse7]).drop k = [] := by
    rw [← hd1]
    rfl
  have hdj : ([] : List AxiResponse).drop j = [] := List.drop_nil
  rw [hdk, hdj] at h
  exact h

end Axilent
